import Mathlib

/-!
# Webhook notifier (`notifiers/webhook.go`)

A shallow embedding of the webhook notifier of the status-page monitor and a
verification of its request construction, template substitution and
online/offline state machine.

Modelling conventions.

* Go strings are embedded as `String`; the library routines that scan them
  (`strings.Replace`, `strings.Split`) are written over the list of characters.
  Every separator and placeholder the notifier uses is ASCII, so scanning by
  character and scanning by byte agree on well-formed UTF-8 text.
* Nullable pointers (`*types.Service`, `*types.Failure`) are `Option`s.
* A Go call either returns a value, returns a non-nil `error`, or panics with a
  run-time error; the three outcomes are kept apart in `Outcome`.
* `http.Header` is embedded as the list of `(key, value)` arguments of the
  `Header.Add` calls, in call order.
* `utils.Log` only writes to the logger and is left out.
-/

namespace Statping

/-! ## Library routines of package `strings` -/

namespace strings

/-- Scanning loop of `strings.Replace(s, old, new, -1)` for a non-empty `old`.
The counter is the number of characters of the current match that are still to
be skipped; at counter `0` the loop looks for `old` at the current position. -/
def replaceLoop (old new : List Char) : Nat → List Char → List Char
  | _, [] => []
  | k + 1, _ :: cs => replaceLoop old new k cs
  | 0, c :: cs =>
    if old.isPrefixOf (c :: cs) then new ++ replaceLoop old new (old.length - 1) cs
    else c :: replaceLoop old new 0 cs

/-- Case `old == ""` of `strings.Replace`: `new` is inserted before every
character and at the end of the text. -/
def replaceEmpty (new : List Char) : List Char → List Char
  | [] => new
  | c :: cs => new ++ c :: replaceEmpty new cs

/-- Character-list form of `strings.Replace(s, old, new, -1)`: every
non-overlapping occurrence of `old`, leftmost first, is replaced by `new`. -/
def replaceAll (s old new : List Char) : List Char :=
  if old = [] then replaceEmpty new s else replaceLoop old new 0 s

/-- The call `strings.Replace(s, old, new, -1)`. -/
def Replace (s old new : String) : String :=
  String.mk (replaceAll s.data old.data new.data)

/-- Puts a character in front of the first piece of a split. -/
def consHead (c : Char) : List (List Char) → List (List Char)
  | [] => [[c]]
  | p :: ps => (c :: p) :: ps

/-- Scanning loop of `strings.Split(s, sep)` for a non-empty `sep`; the counter
is used as in `replaceLoop`. -/
def splitLoop (sep : List Char) : Nat → List Char → List (List Char)
  | _, [] => [[]]
  | k + 1, _ :: cs => splitLoop sep k cs
  | 0, c :: cs =>
    if sep.isPrefixOf (c :: cs) then [] :: splitLoop sep (sep.length - 1) cs
    else consHead c (splitLoop sep 0 cs)

/-- Character-list form of `strings.Split(s, sep)`; an empty `sep` explodes the
text into its characters. -/
def splitAll (s sep : List Char) : List (List Char) :=
  if sep = [] then s.map (fun c => [c]) else splitLoop sep 0 s

/-- The call `strings.Split(s, sep)`. -/
def Split (s sep : String) : List String :=
  (splitAll s.data sep.data).map String.mk

end strings

/-! ## Collaborating packages -/

/-- The fields of `types.Service` that the notifier reads. -/
structure Service where
  Id : Int
  Name : String
deriving DecidableEq, Repr

/-- The field of `types.Failure` that the notifier reads. -/
structure Failure where
  Issue : String
deriving DecidableEq, Repr

namespace utils

/-- Modelled from the spec: `utils.ToString` is not part of the source file; on
an integer identifier it yields the canonical (decimal) text form, with a
leading minus sign for a negative number. -/
def ToString (i : Int) : String :=
  match i with
  | Int.ofNat n => Nat.repr n
  | Int.negSucc n => "-" ++ Nat.repr (n + 1)

end utils

/-- The three ways a Go call can end. -/
inductive Outcome (α : Type) where
  | ok (a : α)
  | err (e : String)
  | panic (msg : String)
deriving DecidableEq, Repr

/-- The part of `http.Request` set up by the notifier. `Header` lists the
arguments of the `Header.Add` calls in call order. -/
structure Request where
  Method : String
  URL : String
  Body : String
  Header : List (String × String)
deriving DecidableEq, Repr

/-- The part of `http.Response` handed back by the transport. -/
structure Response where
  StatusCode : Nat
  Body : String
deriving DecidableEq, Repr

/-- The behaviour of package `net/http` that is outside the notifier: which
`(method, url)` pairs `http.NewRequest` rejects (and with which error), and what
`client.Do` answers to a request. -/
structure HTTP where
  rejects : String → String → Option String
  Do : Request → Except String Response

/-- The call `http.NewRequest(method, url, body)`: an empty method means `GET`,
a rejected method or URL gives an error, otherwise the request has the given
method, URL and body and no header. -/
def HTTP.NewRequest (net : HTTP) (method url body : String) : Except String Request :=
  let method := if method = "" then "GET" else method
  match net.rejects method url with
  | some e => Except.error e
  | none => Except.ok { Method := method, URL := url, Body := body, Header := [] }

/-- A transport that accepts every method and URL and answers `200` with an
empty body. -/
def HTTP.accepting : HTTP where
  rejects := fun _ _ => none
  Do := fun _ => Except.ok { StatusCode := 200, Body := "" }

/-! ## The notifier -/

/-- The fields of the embedded `*notifier.Notification` that the notifier
reads or writes. The form stores the endpoint in `Host`, the method in `Var1`,
the body template in `Var2`, the content type in `ApiKey` (`api_key`) and the
header specification in `ApiSecret` (`api_secret`). -/
structure Webhook where
  Host : String
  Var1 : String
  Var2 : String
  ApiKey : String
  ApiSecret : String
  Online : Bool
deriving DecidableEq, Repr

/-- Source function `replaceBodyText`. -/
def replaceBodyText (body : String) (s : Option Service) (f : Option Failure) : String :=
  let body :=
    match s with
    | some s =>
      strings.Replace (strings.Replace body "%service.Name" s.Name)
        "%service.Id" (utils.ToString s.Id)
    | none => body
  match f with
  | some f => strings.Replace body "%failure.Issue" f.Issue
  | none => body

/-- The header loop of `run`: each piece is split on `=` and elements `0` and
`1` of the split are added as a header; reading element `1` of a split of
length one is an index out of range. -/
def addHeaders : List String → List (String × String) → Outcome (List (String × String))
  | [], hdr => Outcome.ok hdr
  | a :: rest, hdr =>
    match strings.Split a "=" with
    | k :: v :: _ => addHeaders rest (hdr ++ [(k, v)])
    | _ => Outcome.panic "runtime error: index out of range [1] with length 1"

/-- Source function `Webhook.run` up to the hand-over to `client.Do`: the
request that `run` builds. The argument `body` is read by the log call only;
the buffer of the request is filled from `w.Var2`. -/
def buildRequest (net : HTTP) (w : Webhook) (_body : String) : Outcome Request :=
  let buf := if w.Var2 ≠ "" then w.Var2 else ""
  match net.NewRequest w.Var1 w.Host buf with
  | Except.error e => Outcome.err e
  | Except.ok req =>
    let hdr :=
      if w.ApiSecret ≠ "" then addHeaders (strings.Split w.ApiSecret ",") req.Header
      else Outcome.ok req.Header
    match hdr with
    | Outcome.panic m => Outcome.panic m
    | Outcome.err e => Outcome.err e
    | Outcome.ok hdr =>
      let hdr := if w.ApiSecret ≠ "" then hdr ++ [("Content-Type", w.ApiSecret)] else hdr
      Outcome.ok { req with Header := hdr }

/-- Source function `Webhook.run`. -/
def run (net : HTTP) (w : Webhook) (body : String) : Outcome Response :=
  match buildRequest net w body with
  | Outcome.panic m => Outcome.panic m
  | Outcome.err e => Outcome.err e
  | Outcome.ok req =>
    match net.Do req with
    | Except.error e => Outcome.err e
    | Except.ok resp => Outcome.ok resp

/-- Source function `Webhook.Send`, called with a string message. -/
def Send (net : HTTP) (w : Webhook) (msg : String) : Outcome Unit :=
  match run net w msg with
  | Outcome.panic m => Outcome.panic m
  | Outcome.err e => Outcome.err e
  | Outcome.ok _ => Outcome.ok ()

/-- Source function `Webhook.OnFailure`. The result is the receiver after the
call and the messages handed to `AddQueue`. -/
def OnFailure (w : Webhook) (s : Option Service) (f : Option Failure) : Webhook × List String :=
  let msg := replaceBodyText w.Var2 s f
  ({ w with Online := false }, [msg])

/-- Source function `Webhook.OnSuccess`. The result is the receiver after the
call and the messages handed to `AddQueue`. -/
def OnSuccess (w : Webhook) (s : Option Service) : Webhook × List String :=
  if !w.Online then
    let msg := replaceBodyText w.Var2 s none
    ({ w with Online := true }, [msg])
  else
    ({ w with Online := true }, [])

/-! ## The monitoring loop as a sequence of events -/

/-- A call of the monitoring loop into the notifier. -/
inductive Event where
  | failure (s : Option Service) (f : Option Failure)
  | success (s : Option Service)
deriving DecidableEq, Repr

/-- Whether an event is a failure event. -/
def Event.isFailure : Event → Bool
  | Event.failure _ _ => true
  | Event.success _ => false

/-- One event: the matching callback is called on the receiver. -/
def step (w : Webhook) : Event → Webhook × List String
  | Event.failure s f => OnFailure w s f
  | Event.success s => OnSuccess w s

/-- A finite sequence of events, processed in order: the receiver at the end
and all messages handed to `AddQueue`, oldest first. -/
def runEvents (w : Webhook) : List Event → Webhook × List String
  | [] => (w, [])
  | e :: es =>
    let r := step w e
    let r2 := runEvents r.1 es
    (r2.1, r.2 ++ r2.2)

/-- Number of messages a sequence of events is expected to enqueue when the
state before it is offline (`off = true`) or online: one per failure and one per
success that directly follows a failure or an offline start. -/
def expectedMessages : Bool → List Event → Nat
  | _, [] => 0
  | _, Event.failure _ _ :: es => 1 + expectedMessages true es
  | off, Event.success _ :: es => (if off then 1 else 0) + expectedMessages false es

/-- The configuration of the scenario in the specification. -/
def scenario : Webhook where
  Host := "http://x"
  Var1 := "POST"
  Var2 := "%service.Name down"
  ApiKey := "application/json"
  ApiSecret := "X-Test=1"
  Online := true

/-- The events of the scenario: two failures of the service `svc1`, then two
successes. -/
def scenarioEvents : List Event :=
  [Event.failure (some { Id := 1, Name := "svc1" }) (some { Issue := "timeout" }),
   Event.failure (some { Id := 1, Name := "svc1" }) (some { Issue := "timeout" }),
   Event.success (some { Id := 1, Name := "svc1" }),
   Event.success (some { Id := 1, Name := "svc1" })]

/-! ## Orders of substitution -/

/-- The replacements that `replaceBodyText` performs, as pairs of a placeholder
and its value, in the order of the source: name and identifier when a service
is present, issue when a failure is present. -/
def rulesOf (s : Option Service) (f : Option Failure) : List (String × String) :=
  (match s with
    | some s => [("%service.Name", s.Name), ("%service.Id", utils.ToString s.Id)]
    | none => []) ++
  (match f with
    | some f => [("%failure.Issue", f.Issue)]
    | none => [])

/-- Replacements applied one after the other with `strings.Replace`, each on
the output of the one before. -/
def applyRules (rs : List (String × String)) (t : String) : String :=
  rs.foldl (fun body r => strings.Replace body r.1 r.2) t

/-- Two texts of which one starts with the other. -/
def comparable (a b : List Char) : Bool :=
  a.isPrefixOf b || b.isPrefixOf a

/-- No occurrence of `a` can overlap an occurrence of `b` in any text: no
non-empty end of one of them starts with the other or is the start of it. -/
def noOverlap (a b : List Char) : Bool :=
  (b.tails.all fun z => z.isEmpty || !comparable z a) &&
  (a.tails.all fun y => y.isEmpty || !comparable y b)

/-- String form of `noOverlap`: the value `v` cannot overlap the placeholder
`p`. -/
def separate (v p : String) : Bool :=
  noOverlap v.data p.data

/-- Two replacements that do not interfere: neither value can overlap the
placeholder of the other, and the two placeholders cannot overlap. -/
def independent (r r2 : List Char × List Char) : Bool :=
  noOverlap r.2 r2.1 && noOverlap r2.2 r.1 && noOverlap r.1 r2.1

/-- Scanning loop of a single-pass substitution: at each position the first
replacement whose placeholder starts there is applied and its value is not
scanned again. The counter is used as in `strings.replaceLoop`. -/
def singlePassLoop (rs : List (List Char × List Char)) : Nat → List Char → List Char
  | _, [] => []
  | k + 1, _ :: cs => singlePassLoop rs k cs
  | 0, c :: cs =>
    match rs.find? (fun r => r.1.isPrefixOf (c :: cs)) with
    | some r => r.2 ++ singlePassLoop rs (r.1.length - 1) cs
    | none => c :: singlePassLoop rs 0 cs

/-- Character-list form of a list of replacements. -/
def rulesData (rs : List (String × String)) : List (List Char × List Char) :=
  rs.map fun r => (r.1.data, r.2.data)

/-- Single-pass substitution of a list of replacements in a text. -/
def renderSinglePass (rs : List (String × String)) (t : String) : String :=
  String.mk (singlePassLoop (rulesData rs) 0 t.data)

/-- The condition under which the order of the replacements of
`replaceBodyText` cannot be observed: with a service and a failure, the name
cannot overlap `%service.Id` or `%failure.Issue` and the issue cannot overlap
`%service.Name` or `%service.Id`; with a service only, the name cannot overlap
`%service.Id`; otherwise there is at most one replacement. -/
def valuesSeparate (s : Option Service) (f : Option Failure) : Bool :=
  match s, f with
  | some x, some y =>
    separate x.Name "%service.Id" && separate x.Name "%failure.Issue" &&
      separate y.Issue "%service.Name" && separate y.Issue "%service.Id"
  | some x, none => separate x.Name "%service.Id"
  | none, _ => true

/-! ## What the header loop adds -/

/-- The text before the first `=` of a text (the whole text if it has none). -/
def beforeEquals (s : List Char) : List Char :=
  s.takeWhile (fun c => c != '=')

/-- The text after the first `=` of a text (empty if it has none). -/
def afterEquals (s : List Char) : List Char :=
  (s.dropWhile (fun c => c != '=')).drop 1

/-- The pair that the header loop adds for a piece: the text before the first
`=` and the text between the first `=` and the second one (or the end). -/
def headerPair (a : String) : String × String :=
  (String.mk (beforeEquals a.data), String.mk (beforeEquals (afterEquals a.data)))

/-! ## Facts about the scanning loops -/

namespace strings

theorem replaceLoop_nil (old new : List Char) (k : Nat) : replaceLoop old new k [] = [] := by
  cases k <;> rfl

/-- A positive counter skips that many characters. -/
theorem replaceLoop_skip (old new : List Char) (k : Nat) (l : List Char) :
    replaceLoop old new k l = replaceLoop old new 0 (l.drop k) := by
  induction k generalizing l with
  | zero => simp
  | succ k ih =>
    cases l with
    | nil => simp [replaceLoop_nil]
    | cons c cs => simp [replaceLoop, ih]

/-- At an occurrence of `old` the loop emits `new` and goes on behind it. -/
theorem replaceLoop_match (old new rest : List Char) (h : old ≠ []) :
    replaceLoop old new 0 (old ++ rest) = new ++ replaceLoop old new 0 rest := by
  cases old with
  | nil => exact absurd rfl h
  | cons a as =>
    have hp : (a :: as).isPrefixOf (a :: (as ++ rest)) = true := by
      rw [List.isPrefixOf_iff_prefix]
      exact List.prefix_append (a :: as) rest
    simp only [List.cons_append, replaceLoop, hp, if_true]
    rw [replaceLoop_skip]
    simp

/-- Where `old` does not start, the loop copies one character. -/
theorem replaceLoop_copy (old new : List Char) (c : Char) (cs : List Char)
    (h : ¬ old <+: c :: cs) :
    replaceLoop old new 0 (c :: cs) = c :: replaceLoop old new 0 cs := by
  have hp : old.isPrefixOf (c :: cs) = false := by
    rw [← Bool.not_eq_true, List.isPrefixOf_iff_prefix]
    exact h
  simp [replaceLoop, hp]

/-- A text without an occurrence of `old` is returned unchanged. -/
theorem replaceLoop_of_not_infix (old new : List Char) (s : List Char)
    (h : ¬ old <:+: s) : replaceLoop old new 0 s = s := by
  induction s with
  | nil => rfl
  | cons c cs ih =>
    have h1 : ¬ old <+: c :: cs := fun hp => h hp.isInfix
    have h2 : ¬ old <:+: cs := fun hi => h (hi.trans (List.suffix_cons c cs).isInfix)
    rw [replaceLoop_copy old new c cs h1, ih h2]

theorem replaceAll_of_not_infix (s old new : List Char) (h : ¬ old <:+: s) :
    replaceAll s old new = s := by
  have hne : old ≠ [] := by
    rintro rfl
    exact h List.nil_infix
  simp [replaceAll, hne, replaceLoop_of_not_infix old new s h]

/-- String form: a text that does not contain `old` is returned unchanged. -/
theorem Replace_of_not_infix (s old new : String) (h : ¬ old.data <:+: s.data) :
    Replace s old new = s := by
  simp [Replace, replaceAll_of_not_infix s.data old.data new.data h]

end strings


/-! ## Request construction -/

/-- The request does not depend on the `body` argument of `run`. -/
theorem buildRequest_body_irrelevant (net : HTTP) (w : Webhook) (b1 b2 : String) :
    buildRequest net w b1 = buildRequest net w b2 := rfl

/-- The request does not depend on the `ApiKey` field. -/
theorem buildRequest_apiKey_irrelevant (net : HTTP) (w : Webhook) (k body : String) :
    buildRequest net { w with ApiKey := k } body = buildRequest net w body := rfl

/-- The header list of a request that `run` builds: empty for an empty header
specification, otherwise the pairs of the header loop followed by a
`Content-Type` entry holding the raw specification. -/
theorem buildRequest_header (net : HTTP) (w : Webhook) (body : String) (req : Request)
    (h : buildRequest net w body = Outcome.ok req) :
    (w.ApiSecret = "" → req.Header = []) ∧
    (w.ApiSecret ≠ "" → ∃ hs, addHeaders (strings.Split w.ApiSecret ",") [] = Outcome.ok hs ∧
      req.Header = hs ++ [("Content-Type", w.ApiSecret)]) := by
  unfold buildRequest HTTP.NewRequest at h
  cases hr : net.rejects (if w.Var1 = "" then "GET" else w.Var1) w.Host with
  | some e => simp [hr] at h
  | none =>
    simp only [hr] at h
    by_cases hs : w.ApiSecret = ""
    · simp only [hs, ne_eq, not_true_eq_false, if_false] at h
      refine ⟨fun _ => ?_, fun hne => absurd hs hne⟩
      cases h
      rfl
    · simp only [ne_eq, hs, not_false_eq_true, if_true] at h
      refine ⟨fun he => absurd he hs, fun _ => ?_⟩
      cases ha : addHeaders (strings.Split w.ApiSecret ",") [] with
      | ok hdr =>
        simp only [ha] at h
        cases h
        exact ⟨hdr, rfl, rfl⟩
      | err e => simp [ha] at h
      | panic m => simp [ha] at h


/-- C1: the body of the request that `run` builds is the raw template `Var2`,
whatever rendered body is passed in: for the template `%service.Name down` and
the rendered message `svc1 down` the request carries `%service.Name down`. -/
theorem run_body_is_raw_template :
    replaceBodyText scenario.Var2 (some { Id := 1, Name := "svc1" }) none = "svc1 down" ∧
    buildRequest HTTP.accepting scenario "svc1 down" =
      Outcome.ok { Method := "POST", URL := "http://x", Body := "%service.Name down",
                   Header := [("X-Test", "1"), ("Content-Type", "X-Test=1")] } ∧
    (∀ (net : HTTP) (w : Webhook) (body : String) (req : Request),
      buildRequest net w body = Outcome.ok req → req.Body = w.Var2) := by
  refine ⟨by decide, by decide, ?_⟩
  intro net w body req h
  unfold buildRequest HTTP.NewRequest at h
  cases hr : net.rejects (if w.Var1 = "" then "GET" else w.Var1) w.Host with
  | some e => simp [hr] at h
  | none =>
    simp only [hr] at h
    have hb : (if w.Var2 ≠ "" then w.Var2 else "") = w.Var2 := by
      by_cases hv : w.Var2 = "" <;> simp [hv]
    rw [hb] at h
    split at h
    · cases h
    · cases h
    · cases h
      rfl

/-- C2: with the content type `application/json` in `ApiKey` and an empty
header specification the request has no header at all, and with the header
specification `X-Test=1` its `Content-Type` entry holds `X-Test=1`. -/
theorem run_content_type_not_from_apiKey :
    buildRequest HTTP.accepting { scenario with ApiSecret := "" } "svc1 down" =
      Outcome.ok { Method := "POST", URL := "http://x", Body := "%service.Name down",
                   Header := [] } ∧
    buildRequest HTTP.accepting scenario "svc1 down" =
      Outcome.ok { Method := "POST", URL := "http://x", Body := "%service.Name down",
                   Header := [("X-Test", "1"), ("Content-Type", "X-Test=1")] } := by
  constructor <;> decide

/-- C10: the request that `run` builds is the same for two configurations that
differ only in the content-type field `ApiKey`; when a request is built, its
header list is empty for an empty header specification and otherwise ends with
a `Content-Type` entry whose value is the whole raw header specification, so
that entry is present exactly when the header specification is non-empty. -/
theorem run_independent_of_content_type_field (net : HTTP) (w : Webhook) (k body : String) :
    buildRequest net { w with ApiKey := k } body = buildRequest net w body ∧
    run net { w with ApiKey := k } body = run net w body ∧
    ∀ req, buildRequest net w body = Outcome.ok req →
      (w.ApiSecret = "" → req.Header = []) ∧
      (w.ApiSecret ≠ "" → ∃ hs, addHeaders (strings.Split w.ApiSecret ",") [] = Outcome.ok hs ∧
        req.Header = hs ++ [("Content-Type", w.ApiSecret)]) ∧
      (("Content-Type", w.ApiSecret) ∈ req.Header ↔ w.ApiSecret ≠ "") := by
  refine ⟨rfl, rfl, ?_⟩
  intro req h
  obtain ⟨h1, h2⟩ := buildRequest_header net w body req h
  refine ⟨h1, h2, ?_⟩
  constructor
  · intro hm he
    rw [h1 he] at hm
    exact List.not_mem_nil _ hm
  · intro hne
    obtain ⟨hs, -, hh⟩ := h2 hne
    rw [hh]
    simp

/-- Witness for C10 on the scenario configuration with the content type
changed to `text/plain`. -/
theorem run_independent_of_content_type_field_witness :
    buildRequest HTTP.accepting { scenario with ApiKey := "text/plain" } "svc1 down" =
      buildRequest HTTP.accepting scenario "svc1 down" ∧
    (("Content-Type", "X-Test=1") ∈
      [(("X-Test", "1") : String × String), ("Content-Type", "X-Test=1")] ↔
      scenario.ApiSecret ≠ "") :=
  ⟨(run_independent_of_content_type_field HTTP.accepting scenario "text/plain" "svc1 down").1,
   ((run_independent_of_content_type_field HTTP.accepting scenario "text/plain" "svc1 down").2.2
      { Method := "POST", URL := "http://x", Body := "%service.Name down",
        Header := [("X-Test", "1"), ("Content-Type", "X-Test=1")] } (by decide)).2.2⟩


/-! ## The online/offline state machine -/

theorem OnFailure_online (w : Webhook) (s : Option Service) (f : Option Failure) :
    (OnFailure w s f).1.Online = false := rfl

theorem OnSuccess_online (w : Webhook) (s : Option Service) :
    (OnSuccess w s).1.Online = true := by
  unfold OnSuccess
  split <;> rfl

theorem OnSuccess_messages (w : Webhook) (s : Option Service) :
    (OnSuccess w s).2 = if w.Online then [] else [replaceBodyText w.Var2 s none] := by
  unfold OnSuccess
  cases w.Online <;> rfl

/-- After a non-empty run of failure events the notifier is offline. -/
theorem runEvents_failures_offline (w : Webhook) (fs : List Event) (hne : fs ≠ [])
    (hf : ∀ e ∈ fs, e.isFailure = true) : (runEvents w fs).1.Online = false := by
  induction fs generalizing w with
  | nil => exact absurd rfl hne
  | cons e es ih =>
    cases e with
    | success s => simpa [Event.isFailure] using hf (Event.success s) (List.mem_cons_self _ _)
    | failure s f =>
      cases es with
      | nil => rfl
      | cons e2 es2 =>
        exact ih (step w (Event.failure s f)).1 (List.cons_ne_nil _ _)
          (fun e he => hf e (List.mem_cons_of_mem _ he))

/-- The number of messages of a run is the expected one for the state the run
starts in. -/
theorem runEvents_length (w : Webhook) (es : List Event) :
    (runEvents w es).2.length = expectedMessages (!w.Online) es := by
  induction es generalizing w with
  | nil => rfl
  | cons e es ih =>
    cases e with
    | failure s f =>
      simp only [runEvents, step, List.length_append, ih, OnFailure_online, expectedMessages]
      simp [OnFailure]
    | success s =>
      simp only [runEvents, step, List.length_append, ih, OnSuccess_online, expectedMessages,
        OnSuccess_messages]
      cases w.Online <;> simp

/-- C5: starting online, after any finite sequence of events: a failure event
enqueues exactly one message and leaves the notifier offline; a success event
enqueues one message when the notifier is offline and none when it is online,
and leaves it online; a success after a non-empty streak of failures enqueues
exactly one message and a second success right after it enqueues none; the run
as a whole enqueues one message per failure and one per success that directly
follows a failure. -/
theorem state_machine_from_online (w : Webhook) (hw : w.Online = true) (es : List Event) :
    (∀ s f, (step (runEvents w es).1 (Event.failure s f)).2.length = 1 ∧
      (step (runEvents w es).1 (Event.failure s f)).1.Online = false) ∧
    (∀ s, (step (runEvents w es).1 (Event.success s)).2.length =
        (if (runEvents w es).1.Online then 0 else 1) ∧
      (step (runEvents w es).1 (Event.success s)).1.Online = true) ∧
    (∀ fs, fs ≠ [] → (∀ e ∈ fs, e.isFailure = true) → ∀ s s2,
      (step (runEvents (runEvents w es).1 fs).1 (Event.success s)).2.length = 1 ∧
      (step (step (runEvents (runEvents w es).1 fs).1 (Event.success s)).1
        (Event.success s2)).2 = []) ∧
    (∀ s s2, (step (step (runEvents w es).1 (Event.success s)).1 (Event.success s2)).2 = []) ∧
    (runEvents w es).2.length = expectedMessages false es := by
  refine ⟨fun s f => ⟨rfl, rfl⟩, fun s => ⟨?_, OnSuccess_online _ s⟩, ?_, ?_, ?_⟩
  · simp only [step, OnSuccess_messages]
    cases (runEvents w es).1.Online <;> rfl
  · intro fs hne hf s s2
    have hoff := runEvents_failures_offline (runEvents w es).1 fs hne hf
    simp [step, OnSuccess_messages, hoff, OnSuccess_online]
  · intro s s2
    simp [step, OnSuccess_messages, OnSuccess_online]
  · rw [runEvents_length, hw]
    rfl

/-- Witness for C5: the scenario configuration, two failures, then a success
and a second success: three messages, one of them for the recovery. -/
theorem state_machine_from_online_witness :
    scenario.Online = true ∧
    (runEvents scenario scenarioEvents).2.length = expectedMessages false scenarioEvents ∧
    expectedMessages false scenarioEvents = 3 ∧
    (step (runEvents (runEvents scenario []).1 (scenarioEvents.take 2)).1
      (Event.success (some { Id := 1, Name := "svc1" }))).2.length = 1 ∧
    (step (step (runEvents (runEvents scenario []).1 (scenarioEvents.take 2)).1
      (Event.success (some { Id := 1, Name := "svc1" }))).1
      (Event.success (some { Id := 1, Name := "svc1" }))).2 = [] :=
  ⟨by decide,
   (state_machine_from_online scenario (by decide) scenarioEvents).2.2.2.2,
   by decide,
   ((state_machine_from_online scenario (by decide) []).2.2.1 (scenarioEvents.take 2)
      (by decide) (by decide) (some { Id := 1, Name := "svc1" })
      (some { Id := 1, Name := "svc1" })).1,
   ((state_machine_from_online scenario (by decide) []).2.2.1 (scenarioEvents.take 2)
      (by decide) (by decide) (some { Id := 1, Name := "svc1" })
      (some { Id := 1, Name := "svc1" })).2⟩

/-- C9: whatever the online flag is, `OnFailure` hands exactly the rendering of
the body template with the service and the failure to the queue, and
`OnSuccess` hands over nothing when online and exactly the rendering of the
body template with the service and no failure when offline; the template
`%service.Name down` and the service name `svc1` enqueue `svc1 down`. -/
theorem callbacks_enqueue_rendered_template (w : Webhook) (s : Option Service)
    (f : Option Failure) :
    (OnFailure w s f).2 = [replaceBodyText w.Var2 s f] ∧
    (OnSuccess w s).2 = (if w.Online then [] else [replaceBodyText w.Var2 s none]) ∧
    (OnFailure scenario (some { Id := 1, Name := "svc1" }) (some { Issue := "timeout" })).2 =
      ["svc1 down"] ∧
    (OnFailure { scenario with Online := false } (some { Id := 1, Name := "svc1" })
      (some { Issue := "timeout" })).2 = ["svc1 down"] ∧
    (OnSuccess { scenario with Online := false } (some { Id := 1, Name := "svc1" })).2 =
      ["svc1 down"] :=
  ⟨rfl, OnSuccess_messages w s, by decide, by decide, by decide⟩

/-! ## Template substitution -/

/-- C8: a template that contains none of `%service.Name`, `%service.Id` and
`%failure.Issue` is rendered to itself, for every service and failure, present
or absent. -/
theorem replaceBodyText_without_placeholder (t : String) (s : Option Service)
    (f : Option Failure)
    (hN : ¬ "%service.Name".data <:+: t.data)
    (hI : ¬ "%service.Id".data <:+: t.data)
    (hF : ¬ "%failure.Issue".data <:+: t.data) :
    replaceBodyText t s f = t := by
  cases s with
  | none =>
    cases f with
    | none => rfl
    | some f => exact strings.Replace_of_not_infix t _ _ hF
  | some s =>
    have h1 : strings.Replace t "%service.Name" s.Name = t :=
      strings.Replace_of_not_infix t _ _ hN
    have h2 : strings.Replace t "%service.Id" (utils.ToString s.Id) = t :=
      strings.Replace_of_not_infix t _ _ hI
    cases f with
    | none => simp only [replaceBodyText, h1, h2]
    | some f =>
      simp only [replaceBodyText, h1, h2]
      exact strings.Replace_of_not_infix t _ _ hF

/-- Witness for C8: the unknown placeholder `%service.Domain` is left as it
is. -/
theorem replaceBodyText_without_placeholder_witness :
    ¬ "%service.Name".data <:+: "url: %service.Domain".data ∧
    ¬ "%service.Id".data <:+: "url: %service.Domain".data ∧
    ¬ "%failure.Issue".data <:+: "url: %service.Domain".data ∧
    replaceBodyText "url: %service.Domain" (some { Id := 1, Name := "svc1" })
      (some { Issue := "timeout" }) = "url: %service.Domain" :=
  ⟨by decide, by decide, by decide,
   replaceBodyText_without_placeholder "url: %service.Domain"
    (some { Id := 1, Name := "svc1" }) (some { Issue := "timeout" })
    (by decide) (by decide) (by decide)⟩

namespace strings

theorem replaceAll_match (old new rest : List Char) (h : old ≠ []) :
    replaceAll (old ++ rest) old new = new ++ replaceAll rest old new := by
  simp only [replaceAll, if_neg h, replaceLoop_match old new rest h]

theorem replaceAll_copy (old new : List Char) (c : Char) (cs : List Char) (hne : old ≠ [])
    (h : ¬ old <+: c :: cs) :
    replaceAll (c :: cs) old new = c :: replaceAll cs old new := by
  simp only [replaceAll, if_neg hne, replaceLoop_copy old new c cs h]

end strings

/-- Rendering of the template `%service.Id-%service.Name` with a service and no
failure: the identifier text, a dash, and the service name in which every
occurrence of `%service.Id` has been replaced by the identifier text. -/
theorem replaceBodyText_id_dash_name (s : Service) :
    replaceBodyText "%service.Id-%service.Name" (some s) none =
      utils.ToString s.Id ++ "-" ++
        strings.Replace s.Name "%service.Id" (utils.ToString s.Id) := by
  apply String.ext
  have h1 : strings.replaceAll "%service.Id-%service.Name".data "%service.Name".data
      s.Name.data = "%service.Id".data ++ ('-' :: s.Name.data) := by
    simp [strings.replaceAll, strings.replaceLoop, List.isPrefixOf]
  have hne : "%service.Id".data ≠ [] := by decide
  simp only [replaceBodyText, strings.Replace, h1, String.data_append]
  rw [strings.replaceAll_match _ _ _ hne, strings.replaceAll_copy _ _ _ _ hne (by simp)]
  simp

/-- C6 (amended): for every service whose name does not contain `%service.Id`,
the template `%service.Id-%service.Name` is rendered, without a failure, to the
decimal text of the identifier, a dash and the service name. -/
theorem replaceBodyText_id_dash_name_plain (s : Service)
    (h : ¬ "%service.Id".data <:+: s.Name.data) :
    replaceBodyText "%service.Id-%service.Name" (some s) none =
      utils.ToString s.Id ++ "-" ++ s.Name := by
  rw [replaceBodyText_id_dash_name, strings.Replace_of_not_infix _ _ _ h]

/-- Witness for the amended C6. -/
theorem replaceBodyText_id_dash_name_plain_witness :
    ¬ "%service.Id".data <:+: "svc1".data ∧
    replaceBodyText "%service.Id-%service.Name" (some { Id := 42, Name := "svc1" }) none =
      "42-svc1" :=
  ⟨by decide, replaceBodyText_id_dash_name_plain { Id := 42, Name := "svc1" } (by decide)⟩

/-- C6 as stated fails: for the service with identifier `7` and the name
`%service.Id` the rendering is `7-7` and not `7-%service.Id`. -/
theorem replaceBodyText_id_dash_name_counterexample :
    ¬ ∀ s : Service, replaceBodyText "%service.Id-%service.Name" (some s) none =
      utils.ToString s.Id ++ "-" ++ s.Name := by
  intro h
  exact absurd (h { Id := 7, Name := "%service.Id" }) (by decide)

/-! ## The header loop in general -/

/-- Splitting on `=`: the first element is the text before the first `=`, and
the rest is the split of the text after it. -/
theorem splitLoop_equals (s : List Char) :
    strings.splitLoop ['='] 0 s =
      beforeEquals s :: (if '=' ∈ s then strings.splitLoop ['='] 0 (afterEquals s) else []) := by
  induction s with
  | nil => rfl
  | cons c cs ih =>
    by_cases hc : c = '='
    · subst hc
      simp [strings.splitLoop, beforeEquals, afterEquals, List.isPrefixOf]
    · have hp : List.isPrefixOf ['='] (c :: cs) = false := by
        simp [List.isPrefixOf, Ne.symm hc]
      have hm : ('=' ∈ c :: cs) ↔ '=' ∈ cs := by
        simp [List.mem_cons, Ne.symm hc]
      have hb : beforeEquals (c :: cs) = c :: beforeEquals cs := by
        simp [beforeEquals, List.takeWhile_cons, hc]
      have ha : afterEquals (c :: cs) = afterEquals cs := by
        simp [afterEquals, List.dropWhile_cons, hc]
      simp only [strings.splitLoop, hp, hm, hb, ha]
      rw [ih]
      rfl

/-- A piece with an `=` is split into at least two elements, the first two
being the components of `headerPair`. -/
theorem Split_with_equals (a : String) (h : '=' ∈ a.data) :
    ∃ rest, strings.Split a "=" = (headerPair a).1 :: (headerPair a).2 :: rest := by
  have hsep : ("=" : String).data = ['='] := rfl
  have hne : (['='] : List Char) ≠ [] := by decide
  refine ⟨(if '=' ∈ afterEquals a.data then
    strings.splitLoop ['='] 0 (afterEquals (afterEquals a.data)) else []).map String.mk, ?_⟩
  simp only [strings.Split, strings.splitAll, hsep, if_neg hne]
  rw [splitLoop_equals a.data, if_pos h, splitLoop_equals (afterEquals a.data)]
  rfl

/-- A piece without an `=` is split into one element. -/
theorem Split_without_equals (a : String) (h : '=' ∉ a.data) :
    strings.Split a "=" = [String.mk (beforeEquals a.data)] := by
  have hsep : ("=" : String).data = ['='] := rfl
  have hne : (['='] : List Char) ≠ [] := by decide
  simp only [strings.Split, strings.splitAll, hsep, if_neg hne]
  rw [splitLoop_equals a.data, if_neg h]
  rfl

/-- When every piece has an `=`, the header loop adds the `headerPair` of each
piece, in piece order, duplicates included. -/
theorem addHeaders_pairs (pieces : List String) (hdr : List (String × String))
    (h : ∀ a ∈ pieces, '=' ∈ a.data) :
    addHeaders pieces hdr = Outcome.ok (hdr ++ pieces.map headerPair) := by
  induction pieces generalizing hdr with
  | nil => simp [addHeaders]
  | cons a rest ih =>
    obtain ⟨tl, htl⟩ := Split_with_equals a (h a (List.mem_cons_self _ _))
    unfold addHeaders
    rw [htl]
    simp only
    rw [ih _ (fun b hb => h b (List.mem_cons_of_mem _ hb))]
    simp

/-- When some piece has no `=`, the header loop panics. -/
theorem addHeaders_panics (pieces : List String) (hdr : List (String × String))
    (h : ∃ a ∈ pieces, '=' ∉ a.data) :
    addHeaders pieces hdr =
      Outcome.panic "runtime error: index out of range [1] with length 1" := by
  induction pieces generalizing hdr with
  | nil =>
    obtain ⟨a, ha, -⟩ := h
    exact absurd ha (List.not_mem_nil a)
  | cons a rest ih =>
    by_cases hq : '=' ∈ a.data
    · obtain ⟨tl, htl⟩ := Split_with_equals a hq
      unfold addHeaders
      rw [htl]
      simp only
      apply ih
      obtain ⟨b, hb, hbq⟩ := h
      rcases List.mem_cons.1 hb with rfl | hb
      · exact absurd hq hbq
      · exact ⟨b, hb, hbq⟩
    · unfold addHeaders
      rw [Split_without_equals a hq]

/-- The header loop has no error result: it ends with the header list or with
a panic. -/
theorem addHeaders_no_error (pieces : List String) (hdr : List (String × String))
    (e : String) : addHeaders pieces hdr ≠ Outcome.err e := by
  induction pieces generalizing hdr with
  | nil => simp [addHeaders]
  | cons a rest ih =>
    unfold addHeaders
    split
    · exact ih _
    · simp

/-- C3: for the header specification `A=1,B=2` the header loop adds `(A, 1)`
and `(B, 2)` in that order, but for `K=a=b` it adds the pair `(K, a)`: the
value stops at the second `=`. In general, when every piece has an `=`, the
loop adds for each piece, in piece order, the text before the first `=` and
the text between the first `=` and the second one. -/
theorem run_header_value_cut_at_second_equals :
    addHeaders (strings.Split "A=1,B=2" ",") [] = Outcome.ok [("A", "1"), ("B", "2")] ∧
    strings.Split "K=a=b" "=" = ["K", "a", "b"] ∧
    addHeaders (strings.Split "K=a=b" ",") [] = Outcome.ok [("K", "a")] ∧
    buildRequest HTTP.accepting { scenario with ApiSecret := "K=a=b" } "svc1 down" =
      Outcome.ok { Method := "POST", URL := "http://x", Body := "%service.Name down",
                   Header := [("K", "a"), ("Content-Type", "K=a=b")] } ∧
    (∀ (pieces : List String) (hdr : List (String × String)),
      (∀ a ∈ pieces, '=' ∈ a.data) →
      addHeaders pieces hdr = Outcome.ok (hdr ++ pieces.map headerPair)) := by
  refine ⟨by decide, by decide, by decide, by decide, addHeaders_pairs⟩

/-- C4: for the header specification `A` the header loop reads element `1` of
a split of length one: `run` and `Send` end in a run-time panic and return no
error value; the header loop panics whenever some piece has no `=` and has no
error result at all. -/
theorem run_panics_on_piece_without_equals :
    strings.Split "A" "=" = ["A"] ∧
    buildRequest HTTP.accepting { scenario with ApiSecret := "A" } "svc1 down" =
      Outcome.panic "runtime error: index out of range [1] with length 1" ∧
    run HTTP.accepting { scenario with ApiSecret := "A" } "svc1 down" =
      Outcome.panic "runtime error: index out of range [1] with length 1" ∧
    Send HTTP.accepting { scenario with ApiSecret := "A" } "svc1 down" =
      Outcome.panic "runtime error: index out of range [1] with length 1" ∧
    (∀ (pieces : List String) (hdr : List (String × String)),
      (∃ a ∈ pieces, '=' ∉ a.data) →
      addHeaders pieces hdr =
        Outcome.panic "runtime error: index out of range [1] with length 1") ∧
    (∀ (pieces : List String) (hdr : List (String × String)) (e : String),
      addHeaders pieces hdr ≠ Outcome.err e) := by
  refine ⟨by decide, by decide, by decide, by decide, addHeaders_panics, addHeaders_no_error⟩

/-! ## Sequential and single-pass substitution -/

theorem comparable_iff (a b : List Char) : comparable a b = true ↔ (a <+: b ∨ b <+: a) := by
  simp [comparable, List.isPrefixOf_iff_prefix]

theorem noOverlap_symm (a b : List Char) : noOverlap a b = noOverlap b a := by
  simp only [noOverlap, Bool.and_comm]

/-- Under `noOverlap a b` a non-empty end of `b` neither starts with `a` nor
is a start of it. -/
theorem noOverlap_tail {a b : List Char} (h : noOverlap a b = true) {z : List Char}
    (hz : z <:+ b) (hne : z ≠ []) : ¬ (z <+: a ∨ a <+: z) := by
  simp only [noOverlap, Bool.and_eq_true, List.all_eq_true] at h
  have h1 := h.1 z ((List.mem_tails z b).2 hz)
  intro hc
  have hcmp : comparable z a = true := (comparable_iff z a).2 hc
  cases z with
  | nil => exact hne rfl
  | cons x xs => simp [hcmp] at h1

/-- Two starts of one text are comparable. -/
theorem comparable_of_starts {a b t : List Char} (ha : a <+: t) (hb : b <+: t) :
    a <+: b ∨ b <+: a :=
  ( List.prefix_or_prefix_of_prefix ha hb)

/-- The value of a replacement is copied by a later replacement whose
placeholder it cannot overlap. -/
theorem replaceLoop_through_value (Q w : List Char) (v x : List Char)
    (hv : ∀ y, y <:+ v → y ≠ [] → ¬ (y <+: Q ∨ Q <+: y)) :
    strings.replaceLoop Q w 0 (v ++ x) = v ++ strings.replaceLoop Q w 0 x := by
  induction v with
  | nil => rfl
  | cons a v ih =>
    have hno : ¬ Q <+: a :: (v ++ x) := by
      intro hq
      have hy : a :: v <+: a :: (v ++ x) := List.prefix_append (a :: v) x
      exact hv (a :: v) (List.suffix_refl _) (List.cons_ne_nil _ _)
        ((comparable_of_starts hy hq))
    rw [List.cons_append, strings.replaceLoop_copy Q w a (v ++ x) hno,
      ih (fun y hy hne => hv y (hy.trans (List.suffix_cons a v)) hne)]
    rfl

theorem singlePassLoop_nil (rs : List (List Char × List Char)) (k : Nat) :
    singlePassLoop rs k [] = [] := by
  cases k <;> rfl

theorem singlePassLoop_skip (rs : List (List Char × List Char)) (k : Nat) (l : List Char) :
    singlePassLoop rs k l = singlePassLoop rs 0 (l.drop k) := by
  induction k generalizing l with
  | zero => simp
  | succ k ih =>
    cases l with
    | nil => simp [singlePassLoop_nil]
    | cons c cs => simp [singlePassLoop, ih]

/-- Where the placeholder of the first matching replacement starts, the
single-pass loop emits its value and goes on behind the placeholder. -/
theorem singlePassLoop_match (rs : List (List Char × List Char)) (r : List Char × List Char)
    (t u : List Char) (hne : r.1 ≠ []) (ht : t = r.1 ++ u)
    (hf : rs.find? (fun x => x.1.isPrefixOf t) = some r) :
    singlePassLoop rs 0 t = r.2 ++ singlePassLoop rs 0 u := by
  obtain ⟨p, v⟩ := r
  subst ht
  cases p with
  | nil => exact absurd rfl hne
  | cons a as =>
    simp only [List.cons_append] at hf ⊢
    simp only [singlePassLoop, hf]
    rw [singlePassLoop_skip]
    simp

/-- Where no placeholder starts, the single-pass loop copies one character. -/
theorem singlePassLoop_copy (rs : List (List Char × List Char)) (c : Char) (cs : List Char)
    (hf : rs.find? (fun r => r.1.isPrefixOf (c :: cs)) = none) :
    singlePassLoop rs 0 (c :: cs) = c :: singlePassLoop rs 0 cs := by
  simp only [singlePassLoop, hf]

theorem singlePassLoop_no_rules (t : List Char) : singlePassLoop [] 0 t = t := by
  induction t with
  | nil => rfl
  | cons c cs ih => rw [singlePassLoop_copy [] c cs rfl, ih]

/-- The rule found at a position belongs to the rules and its placeholder
starts there. -/
theorem found_rule {rs : List (List Char × List Char)} {t : List Char}
    {r : List Char × List Char}
    (hf : rs.find? (fun x => x.1.isPrefixOf t) = some r) : r ∈ rs ∧ r.1 <+: t := by
  refine ⟨List.mem_of_find?_eq_some hf, ?_⟩
  have h := List.find?_some hf
  exact List.isPrefixOf_iff_prefix.1 h

/-- The single-pass loop copies a text at none of whose positions a
placeholder of the rules starts. -/
theorem singlePassLoop_through (rs : List (List Char × List Char)) (z u : List Char)
    (hz : ∀ y, y <:+ z → y ≠ [] → ∀ r ∈ rs, ¬ r.1 <+: y ++ u) :
    singlePassLoop rs 0 (z ++ u) = z ++ singlePassLoop rs 0 u := by
  induction z with
  | nil => rfl
  | cons a z ih =>
    have hf : rs.find? (fun r => r.1.isPrefixOf (a :: (z ++ u))) = none := by
      rw [List.find?_eq_none]
      intro r hr
      rw [List.isPrefixOf_iff_prefix]
      exact hz (a :: z) (List.suffix_refl _) (List.cons_ne_nil _ _) r hr
    rw [List.cons_append, singlePassLoop_copy rs a (z ++ u) hf,
      ih (fun y hy hne => hz y (hy.trans (List.suffix_cons a z)) hne)]
    rfl

/-- A non-empty end of a placeholder that starts the output of the single-pass
loop already starts its input, when no value of the rules can overlap the
placeholder. -/
theorem start_of_singlePassLoop (rs : List (List Char × List Char)) (Q : List Char)
    (hrs : ∀ r ∈ rs, r.1 ≠ [] ∧ noOverlap r.2 Q = true)
    (z : List Char) (hz : z <:+ Q) (t : List Char)
    (h : z <+: singlePassLoop rs 0 t) : z <+: t := by
  induction z generalizing t with
  | nil => exact List.nil_prefix
  | cons a z ih =>
    cases t with
    | nil =>
      rw [singlePassLoop_nil] at h
      exact h
    | cons c u =>
      cases hf : rs.find? (fun r => r.1.isPrefixOf (c :: u)) with
      | some r =>
        exfalso
        obtain ⟨hr, hp⟩ := found_rule hf
        obtain ⟨u2, hu2⟩ := hp
        rw [singlePassLoop_match rs r (c :: u) u2 (hrs r hr).1 hu2.symm hf] at h
        have hv : r.2 <+: r.2 ++ singlePassLoop rs 0 u2 := List.prefix_append _ _
        exact noOverlap_tail (hrs r hr).2 hz (List.cons_ne_nil _ _)
          (comparable_of_starts h hv)
      | none =>
        rw [singlePassLoop_copy rs c u hf, List.cons_prefix_cons] at h
        rw [List.cons_prefix_cons]
        exact ⟨h.1, ih ((List.suffix_cons a z).trans hz) u h.2⟩

/-- Key step: a replacement applied to the output of a single-pass
substitution is the single-pass substitution with that replacement added at
the end of the rules, when the new placeholder can overlap neither a
placeholder nor a value of the rules. -/
theorem replaceLoop_singlePassLoop (rs : List (List Char × List Char)) (Q w : List Char)
    (hQ : Q ≠ [])
    (hrs : ∀ r ∈ rs, r.1 ≠ [] ∧ noOverlap r.2 Q = true ∧ noOverlap r.1 Q = true)
    (t : List Char) :
    strings.replaceLoop Q w 0 (singlePassLoop rs 0 t) = singlePassLoop (rs ++ [(Q, w)]) 0 t := by
  generalize hn : t.length = n
  induction n using Nat.strong_induction_on generalizing t with
  | _ n ih =>
    cases t with
    | nil => rfl
    | cons c u =>
      cases hf : rs.find? (fun r => r.1.isPrefixOf (c :: u)) with
      | some r =>
        obtain ⟨hr, hp⟩ := found_rule hf
        obtain ⟨u2, hu2⟩ := hp
        have hlen : u2.length < n := by
          have h1 : (c :: u).length = r.1.length + u2.length := by
            rw [← hu2, List.length_append]
          rw [hn] at h1
          have h2 : 0 < r.1.length := List.length_pos.2 (hrs r hr).1
          omega
        have hf2 : (rs ++ [(Q, w)]).find? (fun r => r.1.isPrefixOf (c :: u)) = some r := by
          rw [List.find?_append, hf]
          rfl
        rw [singlePassLoop_match rs r (c :: u) u2 (hrs r hr).1 hu2.symm hf,
          singlePassLoop_match (rs ++ [(Q, w)]) r (c :: u) u2 (hrs r hr).1 hu2.symm hf2,
          replaceLoop_through_value Q w r.2 _
            (fun y hy hne => noOverlap_tail
              (by rw [noOverlap_symm]; exact (hrs r hr).2.1) hy hne),
          ih u2.length hlen u2 rfl]
      | none =>
        by_cases hq : Q <+: c :: u
        · obtain ⟨u2, hu2⟩ := hq
          have hlen : u2.length < n := by
            have h1 : (c :: u).length = Q.length + u2.length := by
              rw [← hu2, List.length_append]
            have h2 : 0 < Q.length := List.length_pos.2 hQ
            omega
          have hthrough : singlePassLoop rs 0 (Q ++ u2) = Q ++ singlePassLoop rs 0 u2 := by
            apply singlePassLoop_through
            intro y hy hne r hr hp
            have hyy : y <+: y ++ u2 := List.prefix_append _ _
            exact noOverlap_tail (hrs r hr).2.2 hy hne (comparable_of_starts hyy hp)
          have hf2 : (rs ++ [(Q, w)]).find? (fun r => r.1.isPrefixOf (c :: u)) =
              some (Q, w) := by
            rw [List.find?_append, hf]
            have : Q.isPrefixOf (c :: u) = true := by
              rw [List.isPrefixOf_iff_prefix]
              exact ⟨u2, hu2⟩
            simp [List.find?, this]
          rw [singlePassLoop_match (rs ++ [(Q, w)]) (Q, w) (c :: u) u2 hQ hu2.symm hf2,
            ← hu2, hthrough, strings.replaceLoop_match Q w _ hQ, ih u2.length hlen u2 rfl]
        · have hf2 : (rs ++ [(Q, w)]).find? (fun r => r.1.isPrefixOf (c :: u)) = none := by
            rw [List.find?_append, hf]
            have : Q.isPrefixOf (c :: u) = false := by
              rw [← Bool.not_eq_true, List.isPrefixOf_iff_prefix]
              exact hq
            simp [List.find?, this]
          have hno : ¬ Q <+: c :: singlePassLoop rs 0 u := by
            intro hs
            apply hq
            apply start_of_singlePassLoop rs Q (fun r hr => ⟨(hrs r hr).1, (hrs r hr).2.1⟩) Q
              (List.suffix_refl _) (c :: u)
            rw [singlePassLoop_copy rs c u hf]
            exact hs
          have hlen : u.length < n := by
            rw [← hn]
            simp
          rw [singlePassLoop_copy rs c u hf, singlePassLoop_copy _ c u hf2,
            strings.replaceLoop_copy Q w c _ hno, ih u.length hlen u rfl]

/-- Rules of which at most one matches at a position are searched with the
same result in any order. -/
theorem find_rule_perm {rs rs2 : List (List Char × List Char)} (hp : rs.Perm rs2)
    (t : List Char)
    (hu : ∀ a ∈ rs, ∀ b ∈ rs, a.1 <+: t → b.1 <+: t → a = b) :
    rs.find? (fun x => x.1.isPrefixOf t) = rs2.find? (fun x => x.1.isPrefixOf t) := by
  cases h1 : rs.find? (fun x => x.1.isPrefixOf t) with
  | none =>
    symm
    rw [List.find?_eq_none] at h1 ⊢
    intro x hx
    exact h1 x (hp.mem_iff.2 hx)
  | some a =>
    obtain ⟨ha, hap⟩ := found_rule h1
    cases h2 : rs2.find? (fun x => x.1.isPrefixOf t) with
    | none =>
      rw [List.find?_eq_none] at h2
      exact absurd (List.isPrefixOf_iff_prefix.2 hap) (h2 a (hp.mem_iff.1 ha))
    | some b =>
      obtain ⟨hb, hbp⟩ := found_rule h2
      rw [hu a ha b (hp.mem_iff.2 hb) hap hbp]

/-- The single-pass substitution does not depend on the order of rules of
which at most one matches at a position. -/
theorem singlePassLoop_perm {rs rs2 : List (List Char × List Char)} (hp : rs.Perm rs2)
    (hu : ∀ a ∈ rs, ∀ b ∈ rs, ∀ t, a.1 <+: t → b.1 <+: t → a = b)
    (k : Nat) (t : List Char) :
    singlePassLoop rs k t = singlePassLoop rs2 k t := by
  induction t generalizing k with
  | nil => rw [singlePassLoop_nil, singlePassLoop_nil]
  | cons c u ih =>
    cases k with
    | succ k => simp only [singlePassLoop, ih]
    | zero =>
      simp only [singlePassLoop]
      rw [← find_rule_perm hp (c :: u) (fun a ha b hb => hu a ha b hb (c :: u))]
      cases rs.find? (fun x => x.1.isPrefixOf (c :: u)) with
      | none => simp only [ih]
      | some r => simp only [ih]

/-- Independence of rules is symmetric. -/
theorem independent_symm {a b : List Char × List Char} (h : independent a b = true) :
    independent b a = true := by
  simp only [independent, Bool.and_eq_true] at h ⊢
  exact ⟨⟨h.1.2, h.1.1⟩, by rw [noOverlap_symm]; exact h.2⟩

/-- Two independent rules with non-empty placeholders do not match at the same
position. -/
theorem independent_not_both {a b : List Char × List Char} (h : independent a b = true)
    (hb : b.1 ≠ []) {t : List Char} (h1 : a.1 <+: t) (h2 : b.1 <+: t) : False := by
  simp only [independent, Bool.and_eq_true] at h
  exact noOverlap_tail h.2 (List.suffix_refl _) hb (comparable_of_starts h2 h1)

/-- Pairwise independent rules: at most one matches at a position. -/
theorem pairwise_unique_match {rs : List (List Char × List Char)}
    (hne : ∀ r ∈ rs, r.1 ≠ [])
    (hpw : rs.Pairwise (fun a b => independent a b = true)) :
    ∀ a ∈ rs, ∀ b ∈ rs, ∀ t, a.1 <+: t → b.1 <+: t → a = b := by
  intro a ha b hb t h1 h2
  by_contra hab
  have hsym : Symmetric (fun a b : List Char × List Char => independent a b = true) :=
    fun _ _ h => independent_symm h
  exact independent_not_both (hpw.forall hsym ha hb hab) (hne b hb) h1 h2

/-- Sequential replacement with pairwise independent rules is the single-pass
substitution with the same rules. -/
theorem applyRules_eq_renderSinglePass (rs : List (String × String)) (t : String)
    (hne : ∀ r ∈ rs, r.1.data ≠ [])
    (hpw : (rulesData rs).Pairwise (fun a b => independent a b = true)) :
    applyRules rs t = renderSinglePass rs t := by
  induction rs using List.reverseRecOn with
  | nil =>
    simp [applyRules, renderSinglePass, rulesData, singlePassLoop_no_rules]
  | append_singleton rs r ih =>
    have hpw2 := hpw
    simp only [rulesData, List.map_append, List.map_cons, List.map_nil,
      List.pairwise_append] at hpw2
    obtain ⟨hpw1, -, hcross⟩ := hpw2
    have ih2 := ih (fun x hx => hne x (List.mem_append_left _ hx)) hpw1
    have hr : r.1.data ≠ [] := hne r (by simp)
    have hkey := replaceLoop_singlePassLoop (rulesData rs) r.1.data r.2.data hr
      (by
        intro x hx
        have hind := hcross x hx (r.1.data, r.2.data) (by simp)
        simp only [independent, Bool.and_eq_true] at hind
        simp only [rulesData, List.mem_map] at hx
        obtain ⟨y, hy, rfl⟩ := hx
        exact ⟨hne y (List.mem_append_left _ hy), hind.1.1, hind.2⟩) t.data
    simp only [applyRules, List.foldl_append, List.foldl_cons, List.foldl_nil] at ih2 ⊢
    rw [ih2]
    simp only [renderSinglePass, strings.Replace, strings.replaceAll, if_neg hr, hkey]
    simp [rulesData]

/-! ## The identifier text -/

/-- Non-empty texts without a common character cannot overlap, one side. -/
theorem tails_not_comparable (a b : List Char) (ha : a ≠ []) (hd : ∀ c ∈ a, c ∉ b) :
    (b.tails.all fun z => z.isEmpty || !comparable z a) = true := by
  rw [List.all_eq_true]
  intro z hz
  have hzb : z <:+ b := (List.mem_tails z b).1 hz
  cases z with
  | nil => rfl
  | cons x xs =>
    cases a with
    | nil => exact absurd rfl ha
    | cons y ys =>
      have hne : x ≠ y := by
        rintro rfl
        exact hd x (List.mem_cons_self _ _) (hzb.subset (List.mem_cons_self _ _))
      have hc : comparable (x :: xs) (y :: ys) = false := by
        rw [← Bool.not_eq_true, comparable_iff, List.cons_prefix_cons, List.cons_prefix_cons]
        rintro (h | h)
        · exact hne h.1
        · exact hne h.1.symm
      simp [hc]

/-- Non-empty texts without a common character cannot overlap. -/
theorem noOverlap_of_disjoint (a b : List Char) (ha : a ≠ []) (hb : b ≠ [])
    (hd : ∀ c ∈ a, c ∉ b) : noOverlap a b = true := by
  simp only [noOverlap, Bool.and_eq_true]
  exact ⟨tails_not_comparable a b ha hd,
    tails_not_comparable b a hb (fun c hc hca => hd c hca hc)⟩

/-- The characters of a decimal digit string are digits. -/
theorem toDigitsCore_digits (fuel n : Nat) (ds : List Char)
    (hds : ∀ c ∈ ds, c.isDigit = true) :
    ∀ c ∈ Nat.toDigitsCore 10 fuel n ds, c.isDigit = true := by
  induction fuel generalizing n ds with
  | zero => simpa [Nat.toDigitsCore] using hds
  | succ fuel ih =>
    have hd : (Nat.digitChar (n % 10)).isDigit = true := by
      have hall : ∀ m, m < 10 → (Nat.digitChar m).isDigit = true := by decide
      exact hall _ (Nat.mod_lt _ (by decide))
    have hds2 : ∀ c ∈ Nat.digitChar (n % 10) :: ds, c.isDigit = true := by
      intro c hc
      rcases List.mem_cons.1 hc with rfl | hc
      · exact hd
      · exact hds c hc
    simp only [Nat.toDigitsCore]
    split
    · exact hds2
    · exact ih _ _ hds2

theorem toDigitsCore_ne_nil (fuel n : Nat) (ds : List Char) (h : 0 < fuel ∨ ds ≠ []) :
    Nat.toDigitsCore 10 fuel n ds ≠ [] := by
  induction fuel generalizing n ds with
  | zero =>
    rcases h with h | h
    · exact absurd h (by decide)
    · simpa [Nat.toDigitsCore] using h
  | succ fuel ih =>
    simp only [Nat.toDigitsCore]
    split
    · exact List.cons_ne_nil _ _
    · exact ih _ _ (Or.inr (List.cons_ne_nil _ _))

/-- The identifier text is not empty and consists of digits and the minus
sign. -/
theorem ToString_chars (i : Int) :
    (utils.ToString i).data ≠ [] ∧
    ∀ c ∈ (utils.ToString i).data, c.isDigit = true ∨ c = '-' := by
  cases i with
  | ofNat n =>
    have hd : (utils.ToString (Int.ofNat n)).data = Nat.toDigitsCore 10 (n + 1) n [] := rfl
    rw [hd]
    exact ⟨toDigitsCore_ne_nil _ _ _ (Or.inl (Nat.succ_pos n)),
      fun c hc => Or.inl (toDigitsCore_digits _ _ [] (by simp) c hc)⟩
  | negSucc n =>
    have hd : (utils.ToString (Int.negSucc n)).data =
        '-' :: Nat.toDigitsCore 10 (n + 1 + 1) (n + 1) [] := rfl
    rw [hd]
    refine ⟨List.cons_ne_nil _ _, fun c hc => ?_⟩
    rcases List.mem_cons.1 hc with rfl | hc
    · exact Or.inr rfl
    · exact Or.inl (toDigitsCore_digits _ _ [] (by simp) c hc)

/-- The identifier text cannot overlap a text that is not empty and has no
digit and no minus sign. -/
theorem ToString_noOverlap (i : Int) (p : List Char) (hp : p ≠ [])
    (hc : ∀ c ∈ p, c.isDigit = false ∧ c ≠ '-') :
    noOverlap (utils.ToString i).data p = true := by
  apply noOverlap_of_disjoint _ _ (ToString_chars i).1 hp
  intro c hci hcp
  rcases (ToString_chars i).2 c hci with h | h
  · rw [(hc c hcp).1] at h
    exact Bool.noConfusion h
  · exact (hc c hcp).2 h

/-! ## Order of the replacements of `replaceBodyText` -/

/-- The source applies its replacements in the order of `rulesOf`. -/
theorem replaceBodyText_eq_applyRules (t : String) (s : Option Service) (f : Option Failure) :
    replaceBodyText t s f = applyRules (rulesOf s f) t := by
  cases s <;> cases f <;> rfl

/-- Every replacement of `rulesOf` is for one of the three placeholders. -/
theorem rulesOf_placeholder (s : Option Service) (f : Option Failure) :
    ∀ r ∈ rulesOf s f,
      r.1 = "%service.Name" ∨ r.1 = "%service.Id" ∨ r.1 = "%failure.Issue" := by
  intro r hr
  cases s with
  | none =>
    cases f with
    | none => simp [rulesOf] at hr
    | some y =>
      simp only [rulesOf, List.nil_append, List.mem_singleton] at hr
      rw [hr]
      exact Or.inr (Or.inr rfl)
  | some x =>
    cases f with
    | none =>
      simp only [rulesOf, List.append_nil, List.mem_cons, List.mem_singleton,
        List.not_mem_nil, or_false] at hr
      rcases hr with h | h <;> rw [h]
      · exact Or.inl rfl
      · exact Or.inr (Or.inl rfl)
    | some y =>
      simp only [rulesOf, List.cons_append, List.nil_append, List.mem_cons,
        List.mem_singleton, List.not_mem_nil, or_false] at hr
      rcases hr with h | h | h <;> rw [h]
      · exact Or.inl rfl
      · exact Or.inr (Or.inl rfl)
      · exact Or.inr (Or.inr rfl)

theorem rulesOf_placeholder_ne (s : Option Service) (f : Option Failure) :
    ∀ r ∈ rulesOf s f, r.1.data ≠ [] := by
  intro r hr
  rcases rulesOf_placeholder s f r hr with h | h | h <;> rw [h] <;> decide

/-- Under `valuesSeparate` the replacements of `rulesOf` are pairwise
independent. -/
theorem rulesOf_independent (s : Option Service) (f : Option Failure)
    (h : valuesSeparate s f = true) :
    (rulesData (rulesOf s f)).Pairwise (fun a b => independent a b = true) := by
  have hidN : ∀ i : Int, noOverlap (utils.ToString i).data "%service.Name".data = true :=
    fun i => ToString_noOverlap i _ (by decide) (by decide)
  have hidF : ∀ i : Int, noOverlap (utils.ToString i).data "%failure.Issue".data = true :=
    fun i => ToString_noOverlap i _ (by decide) (by decide)
  have hNI : noOverlap "%service.Name".data "%service.Id".data = true := by decide
  have hNF : noOverlap "%service.Name".data "%failure.Issue".data = true := by decide
  have hIF : noOverlap "%service.Id".data "%failure.Issue".data = true := by decide
  cases s with
  | none =>
    cases f with
    | none => simp [rulesOf, rulesData]
    | some y => simp [rulesOf, rulesData]
  | some x =>
    cases f with
    | none =>
      simp only [valuesSeparate, separate] at h
      simp only [rulesOf, rulesData, List.append_nil, List.map_cons, List.map_nil,
        List.pairwise_cons, List.mem_singleton, List.not_mem_nil, forall_eq,
        List.Pairwise.nil, and_true, independent, Bool.and_eq_true, false_imp_iff,
        implies_true]
      exact ⟨⟨h, hidN x.Id⟩, hNI⟩
    | some y =>
      simp only [valuesSeparate, separate, Bool.and_eq_true] at h
      obtain ⟨⟨⟨h1, h2⟩, h3⟩, h4⟩ := h
      simp only [rulesOf, rulesData, List.cons_append, List.nil_append, List.map_cons,
        List.map_nil, List.pairwise_cons, List.mem_cons, List.mem_singleton,
        List.not_mem_nil, forall_eq_or_imp, forall_eq, List.Pairwise.nil, and_true,
        independent, Bool.and_eq_true, false_imp_iff, implies_true, or_false]
      exact ⟨⟨⟨⟨h1, hidN x.Id⟩, hNI⟩, ⟨⟨h2, h3⟩, hNF⟩⟩, ⟨⟨hidF x.Id, h4⟩, hIF⟩⟩

/-- C7 (amended): when the values cannot overlap the placeholders of the other
replacements (`valuesSeparate`), applying the replacements of
`replaceBodyText` in any order gives the string that the source computes, and
that string is the single-pass substitution of the template, in which no
inserted value is scanned again. -/
theorem replaceBodyText_order_irrelevant (t : String) (s : Option Service)
    (f : Option Failure) (h : valuesSeparate s f = true)
    (rs : List (String × String)) (hp : rs.Perm (rulesOf s f)) :
    applyRules rs t = replaceBodyText t s f ∧
    replaceBodyText t s f = renderSinglePass (rulesOf s f) t := by
  have hpw := rulesOf_independent s f h
  have hne := rulesOf_placeholder_ne s f
  have hsrc : replaceBodyText t s f = renderSinglePass (rulesOf s f) t := by
    rw [replaceBodyText_eq_applyRules, applyRules_eq_renderSinglePass _ t hne hpw]
  refine ⟨?_, hsrc⟩
  have hpd : (rulesData rs).Perm (rulesData (rulesOf s f)) := hp.map _
  have hpw2 : (rulesData rs).Pairwise (fun a b => independent a b = true) :=
    (hpd.pairwise_iff (fun h => independent_symm h)).2 hpw
  have hne2 : ∀ r ∈ rs, r.1.data ≠ [] := fun r hr => hne r (hp.mem_iff.1 hr)
  have hneD : ∀ r ∈ rulesData rs, r.1 ≠ [] := by
    intro r hr
    simp only [rulesData, List.mem_map] at hr
    obtain ⟨y, hy, rfl⟩ := hr
    exact hne2 y hy
  rw [applyRules_eq_renderSinglePass rs t hne2 hpw2, hsrc]
  simp only [renderSinglePass]
  rw [singlePassLoop_perm hpd (pairwise_unique_match hneD hpw2)]

/-- Witness for the amended C7: the service `svc1` with identifier `42` and
the issue `timeout`, with the identifier replaced first and the name last. -/
theorem replaceBodyText_order_irrelevant_witness :
    valuesSeparate (some { Id := 42, Name := "svc1" }) (some { Issue := "timeout" }) = true ∧
    applyRules [("%service.Id", "42"), ("%failure.Issue", "timeout"), ("%service.Name", "svc1")]
        "%service.Name (%service.Id): %failure.Issue" =
      replaceBodyText "%service.Name (%service.Id): %failure.Issue"
        (some { Id := 42, Name := "svc1" }) (some { Issue := "timeout" }) :=
  ⟨by decide,
   (replaceBodyText_order_irrelevant "%service.Name (%service.Id): %failure.Issue"
      (some { Id := 42, Name := "svc1" }) (some { Issue := "timeout" }) (by decide)
      [("%service.Id", "42"), ("%failure.Issue", "timeout"), ("%service.Name", "svc1")]
      (by decide)).1⟩

/-- C7 as stated fails: for the template `%service.Name` and the service with
identifier `7` and name `%service.Id`, the source (name first, identifier
second) yields `7`, while identifier first and name second yields
`%service.Id`. -/
theorem replaceBodyText_order_observable :
    ¬ ∀ (t : String) (s : Option Service) (f : Option Failure) (rs : List (String × String)),
      rs.Perm (rulesOf s f) → applyRules rs t = replaceBodyText t s f := by
  intro h
  exact absurd
    (h "%service.Name" (some { Id := 7, Name := "%service.Id" }) none
      [("%service.Id", "7"), ("%service.Name", "%service.Id")] (by decide))
    (by decide)

end Statping
